import Mathlib

/-!
# Verification of the inverter test bench (`sv/sim_main.cpp`)

`main` builds a Verilator context, the generated `Vinverter` model and a VCD
trace sink, then runs the stepping loop

    while (contextp->time() < 1000) {
      clock = !clock;  top->reset = 0;  top->A = clock;
      top->eval();     tfp->dump(contextp->time());
      VL_PRINTF("A is %d , Z is %d\n", top->A, top->Z);
      contextp->timeInc(1);
    }
    top->final();  delete top;  delete contextp;  exit(0);

The embedding passes the state explicitly and records every call that `main`
makes in an event log.  The Verilator library and the generated model are not
part of the repository; they appear as a parameter (`Engine`).
-/

namespace SimMain

/-- Calls and assignments performed by `main`, in the order of the source text.
`eval` carries the values of the input ports `top->reset` and `top->A` at the
moment of the call; `traceClose` and `deleteTrace` stand for `tfp->close()` and
`delete tfp`. -/
inductive Event where
  | newContext
  | commandArgs
  | newModel
  | internalsDump
  | traceEverOn (flag : Bool)
  | newTrace
  | trace (levels : Nat)
  | traceOpen (path : String)
  | banner (line : String)
  | setClock (v : Bool)
  | writeReset (v : Bool)
  | writeA (v : Bool)
  | eval (reset : Bool) (a : Bool)
  | dump (t : Nat)
  | printf (a : Nat) (z : Nat)
  | timeInc (add : Nat)
  | final
  | deleteTop
  | deleteContext
  | traceClose
  | deleteTrace
  | exit (status : Int)
  deriving DecidableEq, Repr

/-- Modelled from the spec: `VerilatedContext` is declared in `verilated.h`,
which is not in the repository; the spec describes its simulation time as an
integer counter that starts at zero and is advanced by `timeInc`.

`Ext` is the state owned by the library objects: the context's simulation time
(`contextp->time()`), the output port `top->Z`, and everything else the model
and the trace sink keep internally. -/
structure Ext (σ : Type) where
  time : Nat
  Z : Nat
  st : σ

/-- The external collaborators of the driver.  `eval` is `top->eval()`, `dump`
is `tfp->dump(t)`; both receive the input ports `reset` and `A` read-only (they
are `input` ports, driven by the test bench only) and may change anything in
`Ext`.  `Z0` and `st0` describe the freshly constructed model. -/
structure Engine (σ : Type) where
  Z0 : Nat
  st0 : σ
  eval : Bool → Bool → Ext σ → Ext σ
  dump : Nat → Bool → Bool → Ext σ → Ext σ

/-- The assumption under which the loop is analysed: neither `eval` nor `dump`
changes the context's simulation time. -/
def Engine.PreservesTime {σ : Type} (eng : Engine σ) : Prop :=
  (∀ r a x, (eng.eval r a x).time = x.time) ∧
  (∀ t r a x, (eng.dump t r a x).time = x.time)

/-- Program state of `main` inside the loop: the function-level statics
`reset`, `clock`, `count`, the input ports `top->reset` and `top->A`, the
library state, and the log of calls made so far. -/
structure Sim (σ : Type) where
  reset : Bool
  clock : Bool
  count : Int
  top_reset : Bool
  top_A : Bool
  ext : Ext σ
  log : List Event

/-- Conversion of a `bool` to the integer that `%d` prints. -/
def b2n (b : Bool) : Nat := if b then 1 else 0

/-- One execution of the loop body (lines 21-31 of `sim_main.cpp`), with the
argument of `timeInc` as a parameter (`1` in the source). -/
def body {σ : Type} (inc : Nat) (eng : Engine σ) (s : Sim σ) : Sim σ :=
  let clock := !s.clock
  let top_reset := false
  let top_A := clock
  let e1 := eng.eval top_reset top_A s.ext
  let t := e1.time
  let e2 := eng.dump t top_reset top_A e1
  let line := Event.printf (b2n top_A) e2.Z
  let e3 : Ext σ := { e2 with time := e2.time + inc }
  { s with
    clock := clock
    top_reset := top_reset
    top_A := top_A
    ext := e3
    log := s.log ++ [Event.setClock clock, Event.writeReset top_reset, Event.writeA top_A,
                     Event.eval top_reset top_A, Event.dump t, line, Event.timeInc inc] }

/-- The loop `while (contextp->time() < bound) body`.  The first argument is
fuel (one unit per evaluation of the loop condition); the second counts the
completed iterations.  `none` means the fuel ran out. -/
def whileLoop {σ : Type} (bound inc : Nat) (eng : Engine σ) :
    Nat → Nat → Sim σ → Option (Nat × Sim σ)
  | 0, _, _ => none
  | fuel + 1, n, s =>
    if s.ext.time < bound then whileLoop bound inc eng fuel (n + 1) (body inc eng s)
    else some (n, s)

/-- What a finished run leaves behind: the full event log, the number of loop
iterations, and the process exit status. -/
structure Outcome where
  log : List Event
  iterations : Nat
  status : Int
  deriving DecidableEq, Repr

/-- Lines 7-19 of `main`: construction of the context, the model and the trace
sink, and the start-up line on `std::cout`. -/
def startup : List Event :=
  [Event.newContext, Event.commandArgs, Event.newModel, Event.internalsDump,
   Event.traceEverOn true, Event.newTrace, Event.trace 99,
   Event.traceOpen "foobadir/simx.vcd", Event.banner "Starting the sucker!"]

/-- State at the loop head on entry: the three statics are zero-initialised,
the context's time is `0`, and the input ports hold `false` until first
written. -/
def initial {σ : Type} (eng : Engine σ) : Sim σ :=
  { reset := false, clock := false, count := 0,
    top_reset := false, top_A := false,
    ext := { time := 0, Z := eng.Z0, st := eng.st0 },
    log := startup }

/-- Lines 33-36 of `main`: what follows the loop. -/
def shutdown : List Event :=
  [Event.final, Event.deleteTop, Event.deleteContext, Event.exit 0]

/-- The whole of `main`, with the loop bound and the time increment as
parameters. -/
def run {σ : Type} (bound inc : Nat) (eng : Engine σ) (fuel : Nat) : Option Outcome :=
  match whileLoop bound inc eng fuel 0 (initial eng) with
  | none => none
  | some (n, s) => some { log := s.log ++ shutdown, iterations := n, status := 0 }

/-- The program as written: bound `1000`, increment `1`. -/
def main {σ : Type} (eng : Engine σ) (fuel : Nat) : Option Outcome :=
  run 1000 1 eng fuel

/-- The inverter itself as an engine: `eval` sets `Z` to the negation of `A`,
`dump` appends the time stamp to the sink's record list. -/
def inverter : Engine (List Nat) where
  Z0 := 0
  st0 := []
  eval := fun _ a x => { x with Z := b2n (!a) }
  dump := fun t _ _ x => { x with st := x.st ++ [t] }

/-! ### Observations on an event log -/

/-- Values written to `top->A`, in order. -/
def writesA (l : List Event) : List Bool :=
  l.filterMap fun e => match e with
    | Event.writeA v => some v
    | _ => none

/-- Values written to `top->reset`, in order. -/
def writesReset (l : List Event) : List Bool :=
  l.filterMap fun e => match e with
    | Event.writeReset v => some v
    | _ => none

/-- Time stamps passed to `tfp->dump`, in order. -/
def dumpTimes (l : List Event) : List Nat :=
  l.filterMap fun e => match e with
    | Event.dump t => some t
    | _ => none

/-- Arguments of `timeInc`, in order. -/
def timeIncs (l : List Event) : List Nat :=
  l.filterMap fun e => match e with
    | Event.timeInc d => some d
    | _ => none

/-- Exit statuses passed to `exit`, in order. -/
def exits (l : List Event) : List Int :=
  l.filterMap fun e => match e with
    | Event.exit c => some c
    | _ => none

/-- Values of `top->reset` presented to the engine at the `eval` calls. -/
def evalResets (l : List Event) : List Bool :=
  l.filterMap fun e => match e with
    | Event.eval r _ => some r
    | _ => none

/-- The log with the `Z` argument of every diagnostic line blanked. -/
def eraseZ (l : List Event) : List Event :=
  l.map fun e => match e with
    | Event.printf a _ => Event.printf a 0
    | e => e

/-- The seven events of one loop iteration that writes `a` to `top->A`, dumps
at time `t` and prints `z` for `top->Z`. -/
def iterTrace (inc : Nat) (a : Bool) (t z : Nat) : List Event :=
  [Event.setClock a, Event.writeReset false, Event.writeA a, Event.eval false a,
   Event.dump t, Event.printf (b2n a) z, Event.timeInc inc]

/-- The value of `top->Z` that the diagnostic line of the iteration starting in
state `s` prints. -/
def diagZ {σ : Type} (eng : Engine σ) (s : Sim σ) : Nat :=
  (eng.dump (eng.eval false (!s.clock) s.ext).time false (!s.clock)
    (eng.eval false (!s.clock) s.ext)).Z

/-- The value of `clock` after the toggle of iteration `i` (0-based), when it
was `c` before the loop. -/
def clockAt (c : Bool) (i : Nat) : Bool := if i % 2 = 0 then !c else c

/-- Number of iterations of `while (time < bound) time += inc` from time 0. -/
def iterCount (bound inc : Nat) : Nat := (bound + inc - 1) / inc

/-- The log of the loop: `k` iterations from time `0` with `clock` initially
`false`, printing `z i` for `top->Z` in iteration `i`. -/
def loopTrace (inc k : Nat) (z : Nat → Nat) : List Event :=
  (List.range k).flatMap fun i => iterTrace inc (decide (i % 2 = 0)) (i * inc) (z i)

/-- The `Z` value printed in iteration `i` of a run. -/
def zAt {σ : Type} (inc : Nat) (eng : Engine σ) (i : Nat) : Nat :=
  diagZ eng ((body inc eng)^[i] (initial eng))

/-- What `main` leaves behind when run on `inverter`: 1000 iterations, status 0. -/
def inverterOutcome : Outcome :=
  { log := startup ++ loopTrace 1 1000 (zAt 1 inverter) ++ shutdown,
    iterations := 1000, status := 0 }

/-- A second engine, with another state type: a buffer (`Z` follows `A`) that
counts its `eval` calls. -/
def buffer : Engine Nat where
  Z0 := 1
  st0 := 0
  eval := fun _ a x => { x with Z := b2n a, st := x.st + 1 }
  dump := fun _ _ _ x => x

/-! ### The loop body and its iterates -/

theorem body_time {σ : Type} (inc : Nat) (eng : Engine σ) (h : eng.PreservesTime)
    (s : Sim σ) : (body inc eng s).ext.time = s.ext.time + inc := by
  simp [body, h.1, h.2]

theorem body_clock {σ : Type} (inc : Nat) (eng : Engine σ) (s : Sim σ) :
    (body inc eng s).clock = !s.clock := rfl

theorem body_log {σ : Type} (inc : Nat) (eng : Engine σ) (h : eng.PreservesTime)
    (s : Sim σ) :
    (body inc eng s).log = s.log ++ iterTrace inc (!s.clock) s.ext.time (diagZ eng s) := by
  simp [body, iterTrace, diagZ, h.1]

theorem clockAt_succ (c : Bool) (i : Nat) : clockAt c (i + 1) = !clockAt c i := by
  unfold clockAt
  rcases Nat.mod_two_eq_zero_or_one i with h | h
  · have h2 : (i + 1) % 2 = 1 := by omega
    simp [h, h2]
  · have h2 : (i + 1) % 2 = 0 := by omega
    simp [h, h2]

theorem clockAt_false (i : Nat) : clockAt false i = decide (i % 2 = 0) := by
  unfold clockAt
  by_cases h : i % 2 = 0 <;> simp [h]

theorem iter_time {σ : Type} (inc : Nat) (eng : Engine σ) (h : eng.PreservesTime)
    (s : Sim σ) (k : Nat) :
    ((body inc eng)^[k] s).ext.time = s.ext.time + k * inc := by
  induction k with
  | zero => simp
  | succ k ih =>
    rw [Function.iterate_succ_apply', body_time inc eng h, ih, Nat.succ_mul]
    omega

theorem iter_clock {σ : Type} (inc : Nat) (eng : Engine σ) (s : Sim σ) (k : Nat) :
    (!((body inc eng)^[k] s).clock) = clockAt s.clock k := by
  induction k with
  | zero => simp [clockAt]
  | succ k ih =>
    rw [Function.iterate_succ_apply', body_clock, ih, clockAt_succ]

theorem iter_log {σ : Type} (inc : Nat) (eng : Engine σ) (h : eng.PreservesTime)
    (s : Sim σ) (k : Nat) :
    ((body inc eng)^[k] s).log =
      s.log ++ (List.range k).flatMap fun i =>
        iterTrace inc (clockAt s.clock i) (s.ext.time + i * inc)
          (diagZ eng ((body inc eng)^[i] s)) := by
  induction k with
  | zero => simp
  | succ k ih =>
    rw [Function.iterate_succ_apply', body_log inc eng h, ih, iter_clock, iter_time inc eng h,
      List.range_succ, List.flatMap_append]
    simp

/-- The loop runs the body exactly `k` times when the condition holds in the
first `k` iterates and fails in the `k`-th, provided the fuel exceeds `k`. -/
theorem whileLoop_eq {σ : Type} (bound inc : Nat) (eng : Engine σ) (k : Nat) :
    ∀ (fuel n : Nat) (s : Sim σ), k < fuel →
      (∀ i, i < k → ((body inc eng)^[i] s).ext.time < bound) →
      ¬ ((body inc eng)^[k] s).ext.time < bound →
      whileLoop bound inc eng fuel n s = some (n + k, (body inc eng)^[k] s) := by
  induction k with
  | zero =>
    intro fuel n s hf _ hk
    obtain ⟨f, rfl⟩ : ∃ f, fuel = f + 1 := ⟨fuel - 1, by omega⟩
    have hk2 : ¬ s.ext.time < bound := by simpa using hk
    simp [whileLoop, hk2]
  | succ k ih =>
    intro fuel n s hf hlt hk
    obtain ⟨f, rfl⟩ : ∃ f, fuel = f + 1 := ⟨fuel - 1, by omega⟩
    have h0 : s.ext.time < bound := by simpa using hlt 0 (Nat.succ_pos k)
    have hrec := ih f (n + 1) (body inc eng s) (by omega)
      (fun i hi => by
        have := hlt (i + 1) (by omega)
        rwa [Function.iterate_succ_apply] at this)
      (by rwa [Function.iterate_succ_apply] at hk)
    simp only [whileLoop, h0, if_true, hrec, Function.iterate_succ_apply]
    congr 2
    omega

theorem iterCount_lt {bound inc i : Nat} (hinc : 0 < inc) (hi : i < iterCount bound inc) :
    i * inc < bound := by
  unfold iterCount at hi
  have h1 : (i + 1) * inc ≤ bound + inc - 1 := (Nat.le_div_iff_mul_le hinc).1 hi
  rw [Nat.succ_mul] at h1
  omega

theorem iterCount_ge {bound inc : Nat} (hinc : 0 < inc) :
    bound ≤ iterCount bound inc * inc := by
  unfold iterCount
  have h1 : bound + inc - 1 < ((bound + inc - 1) / inc + 1) * inc := by
    rw [Nat.mul_comm]
    exact Nat.lt_mul_div_succ _ hinc
  rw [Nat.succ_mul] at h1
  omega

theorem iterCount_eq_ceil {bound inc : Nat} (hinc : 0 < inc) :
    iterCount bound inc = ⌈(bound : ℚ) / (inc : ℚ)⌉₊ := by
  have hq : (0 : ℚ) < (inc : ℚ) := by exact_mod_cast hinc
  symm
  apply le_antisymm
  · rw [Nat.ceil_le, div_le_iff₀ hq]
    exact_mod_cast iterCount_ge hinc
  · by_contra hlt
    push_neg at hlt
    have h1 : ⌈(bound : ℚ) / (inc : ℚ)⌉₊ * inc < bound := iterCount_lt hinc hlt
    have h2 : (bound : ℚ) / (inc : ℚ) ≤ (⌈(bound : ℚ) / (inc : ℚ)⌉₊ : ℚ) := Nat.le_ceil _
    rw [div_le_iff₀ hq] at h2
    have h3 : (bound : ℚ) ≤ ((⌈(bound : ℚ) / (inc : ℚ)⌉₊ * inc : ℕ) : ℚ) := by
      push_cast
      exact h2
    have h4 : bound ≤ ⌈(bound : ℚ) / (inc : ℚ)⌉₊ * inc := by exact_mod_cast h3
    omega

/-- Closed form of a run: with an engine that leaves time alone, a positive
increment and enough fuel, `run` returns after `iterCount bound inc`
iterations with the log `startup ++ loopTrace ++ shutdown`. -/
theorem run_eq {σ : Type} (bound inc : Nat) (eng : Engine σ) (h : eng.PreservesTime)
    (hinc : 0 < inc) (fuel : Nat) (hf : iterCount bound inc < fuel) :
    run bound inc eng fuel =
      some { log := startup ++ loopTrace inc (iterCount bound inc) (zAt inc eng) ++ shutdown,
             iterations := iterCount bound inc, status := 0 } := by
  have hloop := whileLoop_eq bound inc eng (iterCount bound inc) fuel 0 (initial eng) hf
    (fun i hi => by
      rw [iter_time inc eng h]
      simpa [initial] using iterCount_lt hinc hi)
    (by
      rw [iter_time inc eng h]
      simpa [initial] using iterCount_ge hinc)
  unfold run
  rw [hloop]
  simp only [Nat.zero_add, iter_log inc eng h]
  simp [initial, loopTrace, zAt, clockAt_false]

theorem inverter_preservesTime : inverter.PreservesTime :=
  ⟨fun _ _ _ => rfl, fun _ _ _ _ => rfl⟩

/-! ### Observations on the loop trace -/

theorem filterMap_flatMap_eq {α β γ : Type} (f : α → List β) (g : β → Option γ)
    (l : List α) : (l.flatMap f).filterMap g = l.flatMap fun x => (f x).filterMap g := by
  induction l with
  | nil => rfl
  | cons a l ih => simp [List.flatMap_cons, List.filterMap_append, ih]

theorem flatMap_single_eq {α β : Type} (f : α → β) (l : List α) :
    (l.flatMap fun x => [f x]) = l.map f := by
  induction l with
  | nil => rfl
  | cons a l ih => simp [List.flatMap_cons, ih]

theorem writesA_loopTrace (inc k : Nat) (z : Nat → Nat) :
    writesA (loopTrace inc k z) = (List.range k).map fun i => decide (i % 2 = 0) := by
  unfold writesA loopTrace
  rw [filterMap_flatMap_eq, ← flatMap_single_eq]
  rfl

theorem writesReset_loopTrace (inc k : Nat) (z : Nat → Nat) :
    writesReset (loopTrace inc k z) = (List.range k).map fun _ => false := by
  unfold writesReset loopTrace
  rw [filterMap_flatMap_eq, ← flatMap_single_eq]
  rfl

theorem evalResets_loopTrace (inc k : Nat) (z : Nat → Nat) :
    evalResets (loopTrace inc k z) = (List.range k).map fun _ => false := by
  unfold evalResets loopTrace
  rw [filterMap_flatMap_eq, ← flatMap_single_eq]
  rfl

theorem dumpTimes_loopTrace (inc k : Nat) (z : Nat → Nat) :
    dumpTimes (loopTrace inc k z) = (List.range k).map fun i => i * inc := by
  unfold dumpTimes loopTrace
  rw [filterMap_flatMap_eq, ← flatMap_single_eq]
  rfl

theorem timeIncs_loopTrace (inc k : Nat) (z : Nat → Nat) :
    timeIncs (loopTrace inc k z) = (List.range k).map fun _ => inc := by
  unfold timeIncs loopTrace
  rw [filterMap_flatMap_eq, ← flatMap_single_eq]
  rfl

theorem exits_loopTrace (inc k : Nat) (z : Nat → Nat) : exits (loopTrace inc k z) = [] := by
  unfold exits loopTrace
  rw [filterMap_flatMap_eq]
  simp [iterTrace]

theorem eraseZ_loopTrace (inc k : Nat) (z : Nat → Nat) :
    eraseZ (loopTrace inc k z) = loopTrace inc k fun _ => 0 := by
  unfold eraseZ loopTrace
  induction k with
  | zero => rfl
  | succ k ih =>
    rw [List.range_succ, List.flatMap_append, List.flatMap_append, List.map_append, ih]
    simp [iterTrace]

theorem eraseZ_append (l₁ l₂ : List Event) : eraseZ (l₁ ++ l₂) = eraseZ l₁ ++ eraseZ l₂ := by
  simp [eraseZ]

/-- Every event of the loop trace is one of the seven calls of the body. -/
theorem mem_loopTrace {inc k : Nat} {z : Nat → Nat} {e : Event} (he : e ∈ loopTrace inc k z) :
    ∃ i, i < k ∧ e ∈ iterTrace inc (decide (i % 2 = 0)) (i * inc) (z i) := by
  unfold loopTrace at he
  rw [List.mem_flatMap] at he
  obtain ⟨i, hi, hmem⟩ := he
  exact ⟨i, List.mem_range.1 hi, hmem⟩

theorem final_not_mem_loopTrace (inc k : Nat) (z : Nat → Nat) :
    Event.final ∉ loopTrace inc k z := by
  intro he
  obtain ⟨i, _, hmem⟩ := mem_loopTrace he
  simp [iterTrace] at hmem

theorem deleteTop_not_mem_loopTrace (inc k : Nat) (z : Nat → Nat) :
    Event.deleteTop ∉ loopTrace inc k z := by
  intro he
  obtain ⟨i, _, hmem⟩ := mem_loopTrace he
  simp [iterTrace] at hmem

theorem deleteContext_not_mem_loopTrace (inc k : Nat) (z : Nat → Nat) :
    Event.deleteContext ∉ loopTrace inc k z := by
  intro he
  obtain ⟨i, _, hmem⟩ := mem_loopTrace he
  simp [iterTrace] at hmem

theorem traceClose_not_mem_loopTrace (inc k : Nat) (z : Nat → Nat) :
    Event.traceClose ∉ loopTrace inc k z := by
  intro he
  obtain ⟨i, _, hmem⟩ := mem_loopTrace he
  simp [iterTrace] at hmem

theorem deleteTrace_not_mem_loopTrace (inc k : Nat) (z : Nat → Nat) :
    Event.deleteTrace ∉ loopTrace inc k z := by
  intro he
  obtain ⟨i, _, hmem⟩ := mem_loopTrace he
  simp [iterTrace] at hmem

theorem writeReset_true_not_mem_loopTrace (inc k : Nat) (z : Nat → Nat) :
    Event.writeReset true ∉ loopTrace inc k z := by
  intro he
  obtain ⟨i, _, hmem⟩ := mem_loopTrace he
  simp [iterTrace] at hmem

theorem iterCount_1000 : iterCount 1000 1 = 1000 := by decide

theorem iterCount_4 : iterCount 4 1 = 4 := by decide

/-- The log after `k` iterations from the initial state. -/
theorem iter_log_initial {σ : Type} (inc : Nat) (eng : Engine σ) (h : eng.PreservesTime)
    (k : Nat) :
    ((body inc eng)^[k] (initial eng)).log = startup ++ loopTrace inc k (zAt inc eng) := by
  rw [iter_log inc eng h]
  simp [initial, loopTrace, zAt, clockAt_false]

theorem iter_time_initial {σ : Type} (inc : Nat) (eng : Engine σ) (h : eng.PreservesTime)
    (k : Nat) : ((body inc eng)^[k] (initial eng)).ext.time = k * inc := by
  rw [iter_time inc eng h]
  simp [initial]

/-- In `main` the simulation time at the head of iteration `k` is `k`, so it
never leaves the range `0 .. 1000` and stays far below the 64-bit width of the
library's counter. -/
theorem main_time_lt_two_pow_64 {σ : Type} (eng : Engine σ) (h : eng.PreservesTime)
    (k : Nat) (hk : k ≤ 1000) : ((body 1 eng)^[k] (initial eng)).ext.time < 2 ^ 64 := by
  rw [iter_time_initial 1 eng h]
  have : (1000 : Nat) < 2 ^ 64 := by norm_num
  omega

theorem final_not_mem_startup : Event.final ∉ startup := by
  simp [startup]

/-- Closed form of `main`. -/
theorem main_eq {σ : Type} (eng : Engine σ) (h : eng.PreservesTime) (fuel : Nat)
    (hf : 1000 < fuel) :
    main eng fuel =
      some { log := startup ++ loopTrace 1 1000 (zAt 1 eng) ++ shutdown,
             iterations := 1000, status := 0 } := by
  have := run_eq 1000 1 eng h Nat.one_pos fuel (by rw [iterCount_1000]; exact hf)
  rwa [iterCount_1000] at this

/-- A property of the state that the body preserves holds when the loop
returns, for every engine. -/
theorem whileLoop_inv {σ : Type} (bound inc : Nat) (eng : Engine σ) (P : Sim σ → Prop)
    (hP : ∀ s, P s → P (body inc eng s)) :
    ∀ (fuel n : Nat) (s : Sim σ) (r : Nat × Sim σ), P s →
      whileLoop bound inc eng fuel n s = some r → P r.2 := by
  intro fuel
  induction fuel with
  | zero => intro n s r _ hr; simp [whileLoop] at hr
  | succ f ih =>
    intro n s r hs hr
    by_cases hc : s.ext.time < bound
    · simp only [whileLoop, hc, if_true] at hr
      exact ih (n + 1) (body inc eng s) r (hP s hs) hr
    · simp only [whileLoop, hc, if_false, Option.some.injEq] at hr
      subst hr
      exact hs

theorem map_const_range (k : Nat) {α : Type} (a : α) :
    ((List.range k).map fun _ => a) = List.replicate k a := by
  induction k with
  | zero => rfl
  | succ k ih => rw [List.range_succ, List.map_append, ih, List.replicate_succ']; rfl

/-! ### The claims -/

/-- C1, bounded termination. With an engine whose `eval` and `dump` leave the
simulation time unchanged, the loop of `main` starts at time 0, its condition
holds before each of the first 1000 iterations and fails after the 1000th, so
it returns after exactly 1000 iterations; `top->final()` does not occur in the
log up to the end of the loop, is the first call after it, and occurs exactly
once in the whole run. -/
theorem loop_terminates_then_final {σ : Type} (eng : Engine σ) (h : eng.PreservesTime)
    (fuel : Nat) (hf : 1000 < fuel) :
    (initial eng).ext.time = 0 ∧
    ∃ s : Sim σ,
      whileLoop 1000 1 eng fuel 0 (initial eng) = some (1000, s) ∧
      (∀ i, i < 1000 → ((body 1 eng)^[i] (initial eng)).ext.time < 1000) ∧
      ¬ s.ext.time < 1000 ∧
      Event.final ∉ s.log ∧
      main eng fuel =
        some { log := s.log ++ Event.final ::
                 [Event.deleteTop, Event.deleteContext, Event.exit 0],
               iterations := 1000, status := 0 } ∧
      List.count Event.final
        (s.log ++ Event.final :: [Event.deleteTop, Event.deleteContext, Event.exit 0]) = 1 := by
  refine ⟨rfl, (body 1 eng)^[1000] (initial eng), ?_, ?_, ?_, ?_, ?_, ?_⟩
  · have := whileLoop_eq 1000 1 eng 1000 fuel 0 (initial eng) hf
      (fun i hi => by rw [iter_time_initial 1 eng h]; omega)
      (by rw [iter_time_initial 1 eng h]; omega)
    rwa [Nat.zero_add] at this
  · intro i hi
    rw [iter_time_initial 1 eng h]
    omega
  · rw [iter_time_initial 1 eng h]
    omega
  · rw [iter_log_initial 1 eng h]
    intro hmem
    rcases List.mem_append.1 hmem with hm | hm
    · exact final_not_mem_startup hm
    · exact final_not_mem_loopTrace _ _ _ hm
  · rw [main_eq eng h fuel hf, iter_log_initial 1 eng h]
    rfl
  · rw [iter_log_initial 1 eng h, List.count_append, List.count_append,
      List.count_eq_zero.2 final_not_mem_startup,
      List.count_eq_zero.2 (final_not_mem_loopTrace _ _ _)]
    rfl

theorem loop_terminates_then_final_witness :
    inverter.PreservesTime ∧ 1000 < 1001 ∧
    ∃ s : Sim (List Nat),
      whileLoop 1000 1 inverter 1001 0 (initial inverter) = some (1000, s) ∧
      Event.final ∉ s.log ∧
      main inverter 1001 =
        some { log := s.log ++ Event.final ::
                 [Event.deleteTop, Event.deleteContext, Event.exit 0],
               iterations := 1000, status := 0 } := by
  obtain ⟨_, s, h1, _, _, h4, h5, _⟩ :=
    loop_terminates_then_final inverter inverter_preservesTime 1001 (by decide)
  exact ⟨inverter_preservesTime, by decide, s, h1, h4, h5⟩

/-- C2, signal toggling. `clock` is `false` before the loop; in a run of
`main` (engine leaving time unchanged) there are exactly 1000 writes to
`top->A`, the first writes `true`, every later one writes the negation of the
one before, and the write of iteration `i` is `true` exactly when `i` is
even. -/
theorem input_signal_toggles {σ : Type} (eng : Engine σ) (h : eng.PreservesTime)
    (fuel : Nat) (hf : 1000 < fuel) :
    (initial eng).clock = false ∧
    ∃ out, main eng fuel = some out ∧
      (writesA out.log).length = 1000 ∧
      (writesA out.log)[0]? = some true ∧
      (∀ i, 0 < i → i < 1000 →
        (writesA out.log)[i]? = ((writesA out.log)[i - 1]?).map Bool.not) ∧
      (∀ i, i < 1000 → (writesA out.log)[i]? = some (decide (i % 2 = 0))) := by
  refine ⟨rfl, _, main_eq eng h fuel hf, ?_⟩
  have hw : writesA (startup ++ loopTrace 1 1000 (zAt 1 eng) ++ shutdown) =
      (List.range 1000).map fun i => decide (i % 2 = 0) := by
    have e : ∀ a b c : List Event, writesA (a ++ b ++ c) = writesA a ++ writesA b ++ writesA c := by
      intro a b c; simp [writesA]
    rw [e, writesA_loopTrace]
    have h1 : writesA startup = [] := rfl
    have h2 : writesA shutdown = [] := rfl
    rw [h1, h2, List.nil_append, List.append_nil]
  have hget : ∀ i, i < 1000 →
      ((List.range 1000).map fun i => decide (i % 2 = 0))[i]? = some (decide (i % 2 = 0)) := by
    intro i hi
    rw [List.getElem?_map, List.getElem?_range hi]
    rfl
  simp only [hw]
  refine ⟨by rw [List.length_map, List.length_range], ?_, ?_, hget⟩
  · rw [hget 0 (by decide)]; rfl
  · intro i h0 hi
    rw [hget i hi, hget (i - 1) (by omega)]
    rcases Nat.mod_two_eq_zero_or_one i with hm | hm
    · have hm2 : (i - 1) % 2 = 1 := by omega
      simp [hm, hm2]
    · have hm2 : (i - 1) % 2 = 0 := by omega
      simp [hm, hm2]

theorem input_signal_toggles_witness :
    inverter.PreservesTime ∧ 1000 < 1001 ∧
    ∃ out, main inverter 1001 = some out ∧
      (writesA out.log).length = 1000 ∧
      (writesA out.log)[0]? = some true ∧
      (∀ i, i < 1000 → (writesA out.log)[i]? = some (decide (i % 2 = 0))) := by
  obtain ⟨_, out, h1, h2, h3, _, h5⟩ :=
    input_signal_toggles inverter inverter_preservesTime 1001 (by decide)
  exact ⟨inverter_preservesTime, by decide, out, h1, h2, h3, h5⟩

/-- C3, monotonic time. With an engine leaving time unchanged: the time is 0 on
entry to the loop; one iteration with increment `inc` leaves the time exactly
`inc` higher than it found it (`1` in `main`), so the time never decreases from
one iterate to a later one; and for every bound and every positive increment
the loop returns after exactly `ceil (bound / inc)` iterations, each of which
calls `timeInc inc` once. -/
theorem time_monotonic {σ : Type} (eng : Engine σ) (h : eng.PreservesTime) :
    (initial eng).ext.time = 0 ∧
    (∀ (inc : Nat) (s : Sim σ), (body inc eng s).ext.time = s.ext.time + inc) ∧
    (∀ i, ((body 1 eng)^[i + 1] (initial eng)).ext.time =
        ((body 1 eng)^[i] (initial eng)).ext.time + 1) ∧
    (∀ (inc i j : Nat) (s : Sim σ), i ≤ j →
        ((body inc eng)^[i] s).ext.time ≤ ((body inc eng)^[j] s).ext.time) ∧
    (∀ bound inc fuel : Nat, 0 < inc → ⌈(bound : ℚ) / (inc : ℚ)⌉₊ < fuel →
      ∃ out, run bound inc eng fuel = some out ∧
        out.iterations = ⌈(bound : ℚ) / (inc : ℚ)⌉₊ ∧
        timeIncs out.log = List.replicate ⌈(bound : ℚ) / (inc : ℚ)⌉₊ inc) := by
  refine ⟨rfl, fun inc s => body_time inc eng h s, ?_, ?_, ?_⟩
  · intro i
    rw [Function.iterate_succ_apply', body_time 1 eng h]
  · intro inc i j s hij
    rw [iter_time inc eng h, iter_time inc eng h]
    have := Nat.mul_le_mul_right inc hij
    omega
  · intro bound inc fuel hinc hfuel
    rw [← iterCount_eq_ceil hinc] at hfuel ⊢
    refine ⟨_, run_eq bound inc eng h hinc fuel hfuel, rfl, ?_⟩
    have e : ∀ a b c : List Event,
        timeIncs (a ++ b ++ c) = timeIncs a ++ timeIncs b ++ timeIncs c := by
      intro a b c; simp [timeIncs]
    have h1 : timeIncs startup = [] := rfl
    have h2 : timeIncs shutdown = [] := rfl
    simp only [e, timeIncs_loopTrace, h1, h2, List.nil_append, List.append_nil]
    exact map_const_range _ _

theorem time_monotonic_witness :
    inverter.PreservesTime ∧
    (∀ (inc : Nat) (s : Sim (List Nat)), (body inc inverter s).ext.time = s.ext.time + inc) ∧
    (∀ bound inc fuel : Nat, 0 < inc → ⌈(bound : ℚ) / (inc : ℚ)⌉₊ < fuel →
      ∃ out, run bound inc inverter fuel = some out ∧
        out.iterations = ⌈(bound : ℚ) / (inc : ℚ)⌉₊) := by
  obtain ⟨_, h2, _, _, h5⟩ := time_monotonic inverter inverter_preservesTime
  refine ⟨inverter_preservesTime, h2, ?_⟩
  intro bound inc fuel hinc hfuel
  obtain ⟨out, ho, hi, _⟩ := h5 bound inc fuel hinc hfuel
  exact ⟨out, ho, hi⟩

/-- C4, trace completeness. Every execution of the body adds exactly one
`dump` call to the log; in a run of `main` (engine leaving time unchanged) the
number of `dump` calls equals the number of iterations, and the time stamps
dumped are exactly 0, 1, ..., 999, strictly increasing and without
repetition. -/
theorem trace_complete {σ : Type} (eng : Engine σ) (h : eng.PreservesTime)
    (fuel : Nat) (hf : 1000 < fuel) :
    (∀ s : Sim σ, (dumpTimes (body 1 eng s).log).length = (dumpTimes s.log).length + 1) ∧
    ∃ out, main eng fuel = some out ∧
      (dumpTimes out.log).length = out.iterations ∧
      dumpTimes out.log = List.range 1000 ∧
      (dumpTimes out.log).Pairwise (fun a b => a < b) ∧
      (dumpTimes out.log).Nodup := by
  refine ⟨?_, _, main_eq eng h fuel hf, ?_⟩
  · intro s
    simp [body, dumpTimes, List.filterMap_append]
  have hd : dumpTimes (startup ++ loopTrace 1 1000 (zAt 1 eng) ++ shutdown) =
      List.range 1000 := by
    have e : ∀ a b c : List Event,
        dumpTimes (a ++ b ++ c) = dumpTimes a ++ dumpTimes b ++ dumpTimes c := by
      intro a b c; simp [dumpTimes]
    have h1 : dumpTimes startup = [] := rfl
    have h2 : dumpTimes shutdown = [] := rfl
    rw [e, dumpTimes_loopTrace, h1, h2, List.nil_append, List.append_nil]
    conv_rhs => rw [← List.map_id (List.range 1000)]
    apply List.map_congr_left
    intro i _
    simp
  simp only [hd]
  exact ⟨List.length_range 1000, trivial, List.pairwise_lt_range 1000, List.nodup_range 1000⟩

theorem trace_complete_witness :
    inverter.PreservesTime ∧ 1000 < 1001 ∧
    ∃ out, main inverter 1001 = some out ∧
      (dumpTimes out.log).length = out.iterations ∧
      dumpTimes out.log = List.range 1000 := by
  obtain ⟨_, out, h1, h2, h3, _⟩ :=
    trace_complete inverter inverter_preservesTime 1001 (by decide)
  exact ⟨inverter_preservesTime, by decide, out, h1, h2, h3⟩

/-- C5, end-to-end scenario. The driver run with bound 4 and increment 1
(`clock` initially `false`, engine leaving time unchanged) returns after 4
iterations; the values written to `top->A` are `[true, false, true, false]`,
the time stamps passed to `dump` are `[0, 1, 2, 3]`, so 4 snapshots are
requested, and the process exits with status 0. -/
theorem scenario_bound_four {σ : Type} (eng : Engine σ) (h : eng.PreservesTime)
    (fuel : Nat) (hf : 4 < fuel) :
    (initial eng).clock = false ∧
    ∃ out, run 4 1 eng fuel = some out ∧
      out.iterations = 4 ∧
      writesA out.log = [true, false, true, false] ∧
      dumpTimes out.log = [0, 1, 2, 3] ∧
      (dumpTimes out.log).length = 4 ∧
      exits out.log = [0] ∧
      out.status = 0 := by
  have hrun := run_eq 4 1 eng h Nat.one_pos fuel (by rw [iterCount_4]; exact hf)
  rw [iterCount_4] at hrun
  refine ⟨rfl, _, hrun, rfl, ?_, ?_, ?_, ?_, rfl⟩
  · have e : ∀ a b c : List Event, writesA (a ++ b ++ c) = writesA a ++ writesA b ++ writesA c := by
      intro a b c; simp [writesA]
    simp only [e, writesA_loopTrace]
    rfl
  · have e : ∀ a b c : List Event,
        dumpTimes (a ++ b ++ c) = dumpTimes a ++ dumpTimes b ++ dumpTimes c := by
      intro a b c; simp [dumpTimes]
    simp only [e, dumpTimes_loopTrace]
    rfl
  · have e : ∀ a b c : List Event,
        dumpTimes (a ++ b ++ c) = dumpTimes a ++ dumpTimes b ++ dumpTimes c := by
      intro a b c; simp [dumpTimes]
    simp only [e, dumpTimes_loopTrace]
    rfl
  · have e : ∀ a b c : List Event, exits (a ++ b ++ c) = exits a ++ exits b ++ exits c := by
      intro a b c; simp [exits]
    simp only [e, exits_loopTrace]
    rfl

theorem scenario_bound_four_witness :
    inverter.PreservesTime ∧ 4 < 5 ∧
    ∃ out, run 4 1 inverter 5 = some out ∧
      out.iterations = 4 ∧
      writesA out.log = [true, false, true, false] ∧
      dumpTimes out.log = [0, 1, 2, 3] ∧
      (dumpTimes out.log).length = 4 ∧
      exits out.log = [0] ∧
      out.status = 0 :=
  ⟨inverter_preservesTime, by decide,
    (scenario_bound_four inverter inverter_preservesTime 5 (by decide)).2⟩

/-- C6, resource release at shutdown, as the code has it. In a run of `main`
(engine leaving time unchanged) the trace sink is created and opened on
`foobadir/simx.vcd`, and `top->final()`, `delete top` and `delete contextp`
each occur exactly once; but no `tfp->close()` and no `delete tfp` occurs
anywhere in the run. -/
theorem trace_sink_not_released {σ : Type} (eng : Engine σ) (h : eng.PreservesTime)
    (fuel : Nat) (hf : 1000 < fuel) :
    ∃ out, main eng fuel = some out ∧
      Event.newTrace ∈ out.log ∧
      Event.traceOpen "foobadir/simx.vcd" ∈ out.log ∧
      List.count Event.final out.log = 1 ∧
      List.count Event.deleteTop out.log = 1 ∧
      List.count Event.deleteContext out.log = 1 ∧
      Event.traceClose ∉ out.log ∧
      Event.deleteTrace ∉ out.log := by
  refine ⟨_, main_eq eng h fuel hf, ?_, ?_, ?_, ?_, ?_, ?_, ?_⟩
  · simp [startup]
  · simp [startup]
  · rw [List.count_append, List.count_append,
      List.count_eq_zero.2 final_not_mem_startup,
      List.count_eq_zero.2 (final_not_mem_loopTrace _ _ _)]
    rfl
  · rw [List.count_append, List.count_append,
      List.count_eq_zero.2 (by simp [startup]),
      List.count_eq_zero.2 (deleteTop_not_mem_loopTrace _ _ _)]
    rfl
  · rw [List.count_append, List.count_append,
      List.count_eq_zero.2 (by simp [startup]),
      List.count_eq_zero.2 (deleteContext_not_mem_loopTrace _ _ _)]
    rfl
  · intro hm
    rcases List.mem_append.1 hm with hm | hm
    · rcases List.mem_append.1 hm with hm | hm
      · simp [startup] at hm
      · exact traceClose_not_mem_loopTrace _ _ _ hm
    · simp [shutdown] at hm
  · intro hm
    rcases List.mem_append.1 hm with hm | hm
    · rcases List.mem_append.1 hm with hm | hm
      · simp [startup] at hm
      · exact deleteTrace_not_mem_loopTrace _ _ _ hm
    · simp [shutdown] at hm

theorem trace_sink_not_released_witness :
    inverter.PreservesTime ∧ 1000 < 1001 ∧
    ∃ out, main inverter 1001 = some out ∧
      Event.newTrace ∈ out.log ∧
      Event.traceOpen "foobadir/simx.vcd" ∈ out.log ∧
      List.count Event.final out.log = 1 ∧
      List.count Event.deleteTop out.log = 1 ∧
      List.count Event.deleteContext out.log = 1 ∧
      Event.traceClose ∉ out.log ∧
      Event.deleteTrace ∉ out.log :=
  ⟨inverter_preservesTime, by decide,
    trace_sink_not_released inverter inverter_preservesTime 1001 (by decide)⟩

/-- C7, reset line inactive. In a run of `main` (engine leaving time unchanged)
`top->reset` is written 1000 times, every time with `false`; `true` is never
written to it; and at each of the 1000 `eval` calls the reset input presented
to the engine is `false`. -/
theorem reset_never_asserted {σ : Type} (eng : Engine σ) (h : eng.PreservesTime)
    (fuel : Nat) (hf : 1000 < fuel) :
    ∃ out, main eng fuel = some out ∧
      writesReset out.log = List.replicate 1000 false ∧
      Event.writeReset true ∉ out.log ∧
      evalResets out.log = List.replicate 1000 false ∧
      (∀ a, Event.eval true a ∉ out.log) := by
  refine ⟨_, main_eq eng h fuel hf, ?_, ?_, ?_, ?_⟩
  · have e : ∀ a b c : List Event,
        writesReset (a ++ b ++ c) = writesReset a ++ writesReset b ++ writesReset c := by
      intro a b c; simp [writesReset]
    have h1 : writesReset startup = [] := rfl
    have h2 : writesReset shutdown = [] := rfl
    simp only [e, writesReset_loopTrace, h1, h2, List.nil_append, List.append_nil]
    exact map_const_range _ _
  · intro hm
    rcases List.mem_append.1 hm with hm | hm
    · rcases List.mem_append.1 hm with hm | hm
      · simp [startup] at hm
      · exact writeReset_true_not_mem_loopTrace _ _ _ hm
    · simp [shutdown] at hm
  · have e : ∀ a b c : List Event,
        evalResets (a ++ b ++ c) = evalResets a ++ evalResets b ++ evalResets c := by
      intro a b c; simp [evalResets]
    have h1 : evalResets startup = [] := rfl
    have h2 : evalResets shutdown = [] := rfl
    simp only [e, evalResets_loopTrace, h1, h2, List.nil_append, List.append_nil]
    exact map_const_range _ _
  · intro a hm
    rcases List.mem_append.1 hm with hm | hm
    · rcases List.mem_append.1 hm with hm | hm
      · simp [startup] at hm
      · obtain ⟨i, _, hi⟩ := mem_loopTrace hm
        simp [iterTrace] at hi
    · simp [shutdown] at hm

theorem reset_never_asserted_witness :
    inverter.PreservesTime ∧ 1000 < 1001 ∧
    ∃ out, main inverter 1001 = some out ∧
      writesReset out.log = List.replicate 1000 false ∧
      Event.writeReset true ∉ out.log ∧
      evalResets out.log = List.replicate 1000 false ∧
      (∀ a, Event.eval true a ∉ out.log) :=
  ⟨inverter_preservesTime, by decide,
    reset_never_asserted inverter inverter_preservesTime 1001 (by decide)⟩

/-- The body never calls `exit`, whatever the engine does. -/
theorem body_exits {σ : Type} (inc : Nat) (eng : Engine σ) (s : Sim σ) :
    exits (body inc eng s).log = exits s.log := by
  simp [body, exits, List.filterMap_append]

/-- C8, exit code. For every engine (no assumption on `eval` or `dump`) and
every run of `main` that gets past the loop, the exit status is 0, `exit` is
called exactly once in the whole run, with argument 0, and that call is the
last event of the run. -/
theorem exit_status_zero {σ : Type} (eng : Engine σ) (fuel : Nat) (out : Outcome)
    (hrun : main eng fuel = some out) :
    out.status = 0 ∧ exits out.log = [0] ∧ out.log.getLast? = some (Event.exit 0) := by
  unfold main run at hrun
  cases hw : whileLoop 1000 1 eng fuel 0 (initial eng) with
  | none => rw [hw] at hrun; simp at hrun
  | some r =>
    obtain ⟨n, s⟩ := r
    rw [hw] at hrun
    simp only [Option.some.injEq] at hrun
    subst hrun
    have hinv := whileLoop_inv 1000 1 eng (fun s => exits s.log = [])
      (fun s hs => (body_exits 1 eng s).trans hs) fuel 0 (initial eng) (n, s) rfl hw
    refine ⟨rfl, ?_, ?_⟩
    · have e : ∀ a b : List Event, exits (a ++ b) = exits a ++ exits b := by
        intro a b; simp [exits]
      show exits (s.log ++ shutdown) = [0]
      rw [e, hinv]
      rfl
    · show (s.log ++ shutdown).getLast? = some (Event.exit 0)
      simp [shutdown]

theorem exit_status_zero_witness :
    main inverter 1001 = some inverterOutcome ∧
    inverterOutcome.status = 0 ∧
    exits inverterOutcome.log = [0] ∧
    inverterOutcome.log.getLast? = some (Event.exit 0) :=
  ⟨main_eq inverter inverter_preservesTime 1001 (by decide),
    exit_status_zero inverter 1001 inverterOutcome
      (main_eq inverter inverter_preservesTime 1001 (by decide))⟩

/-- C9, per-iteration order. In a run of `main` (engine leaving time unchanged)
the events between start-up and the two `delete`s are, for t = 0, ..., 999 in
order: toggle `clock` (to `t even`), `top->reset = 0`, `top->A = (t even)`,
`eval` (on reset `false` and `A = (t even)`), `dump t`, the diagnostic line
with that same `A`, `timeInc 1`; followed by a single `final`. -/
theorem iteration_order {σ : Type} (eng : Engine σ) (h : eng.PreservesTime)
    (fuel : Nat) (hf : 1000 < fuel) :
    ∃ out, main eng fuel = some out ∧
      out.log =
        startup ++
        (((List.range 1000).flatMap fun t =>
            [Event.setClock (decide (t % 2 = 0)),
             Event.writeReset false,
             Event.writeA (decide (t % 2 = 0)),
             Event.eval false (decide (t % 2 = 0)),
             Event.dump t,
             Event.printf (if t % 2 = 0 then 1 else 0) (zAt 1 eng t),
             Event.timeInc 1]) ++
          [Event.final]) ++
        [Event.deleteTop, Event.deleteContext, Event.exit 0] := by
  refine ⟨_, main_eq eng h fuel hf, ?_⟩
  have hl : loopTrace 1 1000 (zAt 1 eng) =
      (List.range 1000).flatMap fun t =>
        [Event.setClock (decide (t % 2 = 0)), Event.writeReset false,
         Event.writeA (decide (t % 2 = 0)), Event.eval false (decide (t % 2 = 0)),
         Event.dump t, Event.printf (if t % 2 = 0 then 1 else 0) (zAt 1 eng t),
         Event.timeInc 1] := by
    unfold loopTrace
    congr 1
    funext t
    by_cases ht : t % 2 = 0 <;> simp [iterTrace, b2n, ht]
  show startup ++ loopTrace 1 1000 (zAt 1 eng) ++ shutdown = _
  rw [hl]
  simp only [shutdown, List.append_assoc, List.singleton_append]

theorem iteration_order_witness :
    inverter.PreservesTime ∧ 1000 < 1001 ∧
    ∃ out, main inverter 1001 = some out ∧
      out.log =
        startup ++
        (((List.range 1000).flatMap fun t =>
            [Event.setClock (decide (t % 2 = 0)),
             Event.writeReset false,
             Event.writeA (decide (t % 2 = 0)),
             Event.eval false (decide (t % 2 = 0)),
             Event.dump t,
             Event.printf (if t % 2 = 0 then 1 else 0) (zAt 1 inverter t),
             Event.timeInc 1]) ++
          [Event.final]) ++
        [Event.deleteTop, Event.deleteContext, Event.exit 0] :=
  ⟨inverter_preservesTime, by decide,
    iteration_order inverter inverter_preservesTime 1001 (by decide)⟩

/-- C10, the stimulus does not depend on the circuit. Take two engines, over
any two state types, whose `eval` and `dump` may compute anything but leave the
simulation time unchanged. For every bound and positive increment (1000 and 1
in `main`) both runs of the driver return, with the same number of iterations,
the same writes to `top->reset` and `top->A`, the same `dump` time stamps and
the same exit status; the two logs differ at most in the `Z` argument of the
diagnostic lines. -/
theorem stimulus_independent_of_engine {σ₁ σ₂ : Type} (e₁ : Engine σ₁) (e₂ : Engine σ₂)
    (h₁ : e₁.PreservesTime) (h₂ : e₂.PreservesTime) (bound inc f₁ f₂ : Nat)
    (hinc : 0 < inc) (hf₁ : iterCount bound inc < f₁) (hf₂ : iterCount bound inc < f₂) :
    ∃ o₁ o₂, run bound inc e₁ f₁ = some o₁ ∧ run bound inc e₂ f₂ = some o₂ ∧
      o₁.iterations = o₂.iterations ∧
      writesReset o₁.log = writesReset o₂.log ∧
      writesA o₁.log = writesA o₂.log ∧
      dumpTimes o₁.log = dumpTimes o₂.log ∧
      o₁.status = o₂.status ∧
      eraseZ o₁.log = eraseZ o₂.log := by
  refine ⟨_, _, run_eq bound inc e₁ h₁ hinc f₁ hf₁, run_eq bound inc e₂ h₂ hinc f₂ hf₂,
    rfl, ?_, ?_, ?_, rfl, ?_⟩
  · have e : ∀ a b c : List Event,
        writesReset (a ++ b ++ c) = writesReset a ++ writesReset b ++ writesReset c := by
      intro a b c; simp [writesReset]
    simp only [e, writesReset_loopTrace]
  · have e : ∀ a b c : List Event, writesA (a ++ b ++ c) = writesA a ++ writesA b ++ writesA c := by
      intro a b c; simp [writesA]
    simp only [e, writesA_loopTrace]
  · have e : ∀ a b c : List Event,
        dumpTimes (a ++ b ++ c) = dumpTimes a ++ dumpTimes b ++ dumpTimes c := by
      intro a b c; simp [dumpTimes]
    simp only [e, dumpTimes_loopTrace]
  · simp only [eraseZ_append, eraseZ_loopTrace]

theorem buffer_preservesTime : buffer.PreservesTime :=
  ⟨fun _ _ _ => rfl, fun _ _ _ _ => rfl⟩

theorem stimulus_independent_of_engine_witness :
    inverter.PreservesTime ∧ buffer.PreservesTime ∧ 0 < 1 ∧
    iterCount 1000 1 < 1001 ∧ iterCount 1000 1 < 2000 ∧
    ∃ o₁ o₂, run 1000 1 inverter 1001 = some o₁ ∧ run 1000 1 buffer 2000 = some o₂ ∧
      o₁.iterations = o₂.iterations ∧
      writesReset o₁.log = writesReset o₂.log ∧
      writesA o₁.log = writesA o₂.log ∧
      dumpTimes o₁.log = dumpTimes o₂.log ∧
      o₁.status = o₂.status ∧
      eraseZ o₁.log = eraseZ o₂.log :=
  ⟨inverter_preservesTime, buffer_preservesTime, by decide, by decide, by decide,
    stimulus_independent_of_engine inverter buffer inverter_preservesTime
      buffer_preservesTime 1000 1 1001 2000 (by decide) (by decide) (by decide)⟩

end SimMain
